import Mathlib

set_option maxRecDepth 100000

/-!
Verification of the installation-strategy resolution engine of setup-cpp.

The development shallowly embeds the TypeScript sources: the LLVM artifact
locator (version registry, per-platform URL builders and the candidate loop),
the version resolver and version synchronization, the homebrew setup cache,
the memoized producer pattern, the LLVM environment activation, the rc-file
finalization, and the strategy fallback control flow.

String operations are modelled over the character lists of Lean strings with
structurally recursive functions, mirroring the JavaScript string semantics
(code-unit comparison, startsWith, split, includes) on the ASCII data that
occurs in this program.
-/

namespace JsStr

/-- JS string comparison, strict less-than: lexicographic on code units.
All data in this development is ASCII, where code units and code points agree. -/
def charListLt : List Char → List Char → Bool
  | [], [] => false
  | [], _ :: _ => true
  | _ :: _, [] => false
  | a :: as, b :: bs => if a < b then true else if b < a then false else charListLt as bs

/-- Strict lexicographic order on strings, as the JS default sort comparator uses. -/
def strLtB (a b : String) : Bool := charListLt a.data b.data

/-- Reflexive lexicographic order on strings. -/
def strLeB (a b : String) : Bool := strLtB a b || decide (a = b)

/-- The order relation used to model the JS Array.prototype.sort default ordering. -/
def strLeR (a b : String) : Prop := strLeB a b = true

instance : DecidableRel strLeR := fun a b => inferInstanceAs (Decidable (strLeB a b = true))

/-- listStartsWith pre s decides whether s begins with pre. -/
def listStartsWith : List Char → List Char → Bool
  | [], _ => true
  | _ :: _, [] => false
  | a :: as, b :: bs => a == b && listStartsWith as bs

/-- JS String.prototype.startsWith. -/
def strStartsWith (s pre : String) : Bool := listStartsWith pre.data s.data

/-- JS String.prototype.endsWith. -/
def strEndsWith (s suf : String) : Bool := listStartsWith suf.data.reverse s.data.reverse

/-- Fuel-driven split on a separator character sequence; the fuel is set to the
length of the subject plus one, which is enough for a nonempty separator. -/
def splitFuel (sep : List Char) : Nat → List Char → List Char → List (List Char)
  | 0, s, acc => [acc.reverse ++ s]
  | _ + 1, [], acc => [acc.reverse]
  | fuel + 1, c :: rest, acc =>
    if listStartsWith sep (c :: rest) then
      acc.reverse :: splitFuel sep fuel ((c :: rest).drop sep.length) []
    else
      splitFuel sep fuel rest (c :: acc)

/-- JS String.prototype.split with a nonempty string separator. -/
def strSplitOn (s sep : String) : List String :=
  (splitFuel sep.data (s.data.length + 1) s.data []).map (fun l => ⟨l⟩)

/-- JS String.prototype.includes for a nonempty pattern: true when the split
on the pattern produced more than one part. -/
def strIncludes (s pat : String) : Bool := (strSplitOn s pat).length != 1

/-- A nonempty all-digit character list, the \d+ regex on ASCII input. -/
def digitsNonempty (l : List Char) : Bool := !l.isEmpty && l.all Char.isDigit

/-- Numeric value of an all-digit character list. -/
def chToNat (l : List Char) : Nat := l.foldl (fun acc c => acc * 10 + (c.toNat - 48)) 0

/-- Parse a nonempty all-digit character list into a number. -/
def parseNatL (l : List Char) : Option Nat :=
  if digitsNonempty l then some (chToNat l) else none

end JsStr

namespace Semver

open JsStr

/-- A parsed semantic version: major.minor.patch plus prerelease identifiers. -/
structure SV where
  major : Nat
  minor : Nat
  patch : Nat
  pre : List String
deriving DecidableEq

/-- A numeric identifier without leading zeros, as strict semver requires. -/
def isNumericIdent (l : List Char) : Bool :=
  digitsNonempty l && (l == ['0'] || !(listStartsWith ['0'] l))

/-- A character allowed in a prerelease identifier. -/
def isIdentChar (c : Char) : Bool := c.isAlphanum || c == '-'

/-- A valid prerelease identifier: nonempty, alphanumeric or hyphen characters,
and if all-digit then without leading zeros. -/
def preIdentOk (l : List Char) : Bool :=
  !l.isEmpty && l.all isIdentChar && (!(l.all Char.isDigit) || isNumericIdent l)

/-- Parse a semantic version string of the shape major.minor.patch with an
optional -prerelease suffix (build metadata does not occur in this program). -/
def parseSemver (s : String) : Option SV :=
  match splitFuel ['-'] (s.data.length + 1) s.data [] with
  | [] => none
  | base :: restParts =>
    match splitFuel ['.'] (base.length + 1) base [] with
    | [a, b, c] =>
      if isNumericIdent a && isNumericIdent b && isNumericIdent c then
        if restParts.isEmpty then
          some ⟨chToNat a, chToNat b, chToNat c, []⟩
        else
          let preChars := List.intercalate ['-'] restParts
          let ids := splitFuel ['.'] (preChars.length + 1) preChars []
          if ids.all preIdentOk then
            some ⟨chToNat a, chToNat b, chToNat c, ids.map (fun l => ⟨l⟩)⟩
          else none
      else none
    | _ => none

/-- Precedence of one prerelease identifier below another: numeric identifiers
compare numerically and rank below alphanumeric ones, which compare lexically. -/
def preIdLt (a b : String) : Bool :=
  match parseNatL a.data, parseNatL b.data with
  | some x, some y => decide (x < y)
  | some _, none => true
  | none, some _ => false
  | none, none => strLtB a b

/-- Precedence order on prerelease identifier lists; a list that is a proper
prefix of another ranks below it. -/
def preListLt : List String → List String → Bool
  | [], [] => false
  | [], _ :: _ => true
  | _ :: _, [] => false
  | a :: as, b :: bs =>
    if preIdLt a b then true else if preIdLt b a then false else preListLt as bs

/-- Strict semver precedence: compare major, minor, patch numerically; on a tie
a version with prerelease identifiers ranks below one without. -/
def svLt (x y : SV) : Bool :=
  if x.major < y.major then true
  else if y.major < x.major then false
  else if x.minor < y.minor then true
  else if y.minor < x.minor then false
  else if x.patch < y.patch then true
  else if y.patch < x.patch then false
  else
    match x.pre, y.pre with
    | [], [] => false
    | _ :: _, [] => true
    | [], _ :: _ => false
    | p, q => preListLt p q

/-- The semver lte comparison from the npm semver package. On input that does
not parse the JS library throws a TypeError; every call site in this
development passes versions of the shape x.y.z, possibly carrying an -rc
suffix after the release-candidate substitution, all of which parse. The model
returns false on the unreachable unparseable inputs, and the theorems that
range over arbitrary version strings carry a parseability hypothesis. -/
def semverLte (a b : String) : Bool :=
  match parseSemver a, parseSemver b with
  | some x, some y => svLt x y || decide (x = y)
  | _, _ => false

end Semver

namespace Llvm

open JsStr Semver

/-- The registry of all specific LLVM versions released, in the order the
source lists them (part_001, VERSIONS argument). -/
def SPECIFIC : List String :=
  ["3.5.0", "3.5.1", "3.5.2",
   "3.6.0", "3.6.1", "3.6.2",
   "3.7.0", "3.7.1",
   "3.8.0", "3.8.1",
   "3.9.0", "3.9.1",
   "4.0.0", "4.0.1",
   "5.0.0", "5.0.1", "5.0.2",
   "6.0.0", "6.0.1",
   "7.0.0", "7.0.1", "7.1.0",
   "8.0.0", "8.0.1",
   "9.0.0", "9.0.1",
   "10.0.0", "10.0.1",
   "11.0.0", "11.0.1", "11.1.0",
   "12.0.0", "12.0.1"]

/-- The leading digits of a version string, the regex match of \d+ anchored at
the start; on every registry entry the match succeeds. -/
def majorOf (v : String) : String := ⟨v.data.takeWhile Char.isDigit⟩

/-- The leading major.minor part of a version string, the anchored regex match
of digits, a dot and digits; every registry entry matches. -/
def majorMinorOf (v : String) : String :=
  let mj := v.data.takeWhile Char.isDigit
  match v.data.drop mj.length with
  | '.' :: rest => ⟨mj ++ '.' :: rest.takeWhile Char.isDigit⟩
  | _ => ⟨mj⟩

/-- Adding one element to an insertion-ordered set, the JS Set.prototype.add. -/
def setAdd (l : List String) (x : String) : List String :=
  if l.contains x then l else l ++ [x]

/-- getVersions of part_001: the specific versions together with their derived
major and major.minor aliases, in JS Set insertion order. -/
def VERSIONS : List String :=
  SPECIFIC.foldl (fun acc v => setAdd (setAdd acc (majorOf v)) (majorMinorOf v)) SPECIFIC

/-- The anchored regex \d+[.]\d+[.]\d+ against the whole string: exactly three
nonempty all-digit components separated by dots. -/
def isSpecific (v : String) : Bool :=
  match splitFuel ['.'] (v.data.length + 1) v.data [] with
  | [a, b, c] => digitsNonempty a && digitsNonempty b && digitsNonempty c
  | _ => false

/-- The filter applied by getSpecificVersions: specific versions matching the
requested version as a string prefix. -/
def versionFilter (version v : String) : Bool :=
  isSpecific v && strStartsWith v version

/-- getSpecificVersions of part_001: the matching specific versions sorted with
the default JS sort (ascending lexical) and then reversed. -/
def getSpecificVersions (version : String) : List String :=
  ((VERSIONS.filter (versionFilter version)).insertionSort strLeR).reverse

/-- getGitHubUrl of part_001. -/
def getGitHubUrl (version pfx sfx : String) : String :=
  "https://github.com/llvm/llvm-project/releases/download/llvmorg-" ++ version ++ "/"
    ++ pfx ++ version ++ sfx

/-- getReleaseUrl of part_001. -/
def getReleaseUrl (version pfx sfx : String) : String :=
  "https://releases.llvm.org/" ++ version ++ "/" ++ pfx ++ version ++ sfx

/-- The LLVM versions never released for the Darwin platform. -/
def DARWIN_MISSING : List String :=
  ["3.5.1", "3.6.1", "3.6.2", "3.7.1", "3.8.1", "3.9.1", "6.0.1", "7.0.1", "7.1.0",
   "8.0.1", "11.0.1", "11.1.0", "12.0.1"]

/-- getDarwinUrl of part_001. -/
def getDarwinUrl (version : String) : Option String :=
  if DARWIN_MISSING.contains version then none
  else
    let darwin := if version == "9.0.0" then "-darwin-apple" else "-apple-darwin"
    let pfx := "clang+llvm-"
    let sfx := "-x86_64" ++ darwin ++ ".tar.xz"
    if semverLte version "9.0.1" then some (getReleaseUrl version pfx sfx)
    else some (getGitHubUrl version pfx sfx)

/-- The versions that use the last release-candidate build for Linux instead
of the release build. -/
def UBUNTU_RC : List (String × String) := [("12.0.1", "12.0.1-rc4")]

/-- The (latest) Ubuntu distribution tag for each LLVM version. -/
def UBUNTU : List (String × String) :=
  [("3.5.0", "-ubuntu-14.04"),
   ("3.5.1", ""),
   ("3.5.2", "-ubuntu-14.04"),
   ("3.6.0", "-ubuntu-14.04"),
   ("3.6.1", "-ubuntu-14.04"),
   ("3.6.2", "-ubuntu-14.04"),
   ("3.7.0", "-ubuntu-14.04"),
   ("3.7.1", "-ubuntu-14.04"),
   ("3.8.0", "-ubuntu-16.04"),
   ("3.8.1", "-ubuntu-16.04"),
   ("3.9.0", "-ubuntu-16.04"),
   ("3.9.1", "-ubuntu-16.04"),
   ("4.0.0", "-ubuntu-16.04"),
   ("5.0.0", "-ubuntu16.04"),
   ("5.0.1", "-ubuntu-16.04"),
   ("5.0.2", "-ubuntu-16.04"),
   ("6.0.0", "-ubuntu-16.04"),
   ("6.0.1", "-ubuntu-16.04"),
   ("7.0.0", "-ubuntu-16.04"),
   ("7.0.1", "-ubuntu-18.04"),
   ("7.1.0", "-ubuntu-14.04"),
   ("8.0.0", "-ubuntu-18.04"),
   ("9.0.0", "-ubuntu-18.04"),
   ("9.0.1", "-ubuntu-16.04"),
   ("10.0.0", "-ubuntu-18.04"),
   ("10.0.1", "-ubuntu-16.04"),
   ("11.0.0", "-ubuntu-20.04"),
   ("11.0.1", "-ubuntu-16.04"),
   ("11.1.0", "-ubuntu-16.04"),
   ("12.0.0", "-ubuntu-20.04"),
   ("12.0.1-rc4", "-ubuntu-21.04")]

/-- The latest supported LLVM version for the Linux platform. -/
def MAX_UBUNTU : String := "12.0.1-rc4"

/-- getLinuxUrl of part_001. The JS code would throw inside the semver
comparison for a version that does not parse (such as the empty string); the
model returns the URL that the surrounding computation would have built, and
theorems about this function restrict to parseable versions. -/
def getLinuxUrl (versionGiven : String) : String :=
  let version := (UBUNTU_RC.lookup versionGiven).getD versionGiven
  let ubuntu :=
    if strIncludes version "ubuntu" then version
    else if !(version == "") && (UBUNTU.lookup version).isSome then
      (UBUNTU.lookup version).getD ""
    else (UBUNTU.lookup MAX_UBUNTU).getD ""
  let pfx := "clang+llvm-"
  let sfx :=
    if version == "5.0.0" then "-linux-x86_64" ++ ubuntu ++ ".tar.xz"
    else "-x86_64-linux-gnu" ++ ubuntu ++ ".tar.xz"
  if semverLte version "9.0.1" then getReleaseUrl version pfx sfx
  else getGitHubUrl version pfx sfx

/-- The LLVM versions never released for the Windows platform. -/
def WIN32_MISSING : List String := ["10.0.1"]

/-- getWin32Url of part_001; the URL existence check it performs internally is
the injected probe. -/
def getWin32Url (probe : String → Bool) (version : String) : Option String :=
  if WIN32_MISSING.contains version then none
  else
    let pfx := "LLVM-"
    let sfx := if semverLte version "3.7.0" then "-win32.exe" else "-win64.exe"
    if semverLte version "9.0.1" then
      let url := getReleaseUrl version pfx sfx
      if probe url then some url else some (getGitHubUrl version pfx sfx)
    else
      some (getGitHubUrl version pfx sfx)

/-- getUrl of part_001, dispatching on the platform. -/
def getUrl (probe : String → Bool) (platform version : String) : Option String :=
  if platform == "darwin" then getDarwinUrl version
  else if platform == "linux" then some (getLinuxUrl version)
  else if platform == "win32" then getWin32Url probe version
  else none

/-- Whether a candidate version passes the loop test of
getSpecificVersionAndUrl: its URL is built and the probe confirms it. -/
def candidateOk (probe : String → Bool) (platform v : String) : Bool :=
  match getUrl probe platform v with
  | some u => probe u
  | none => false

/-- The candidate loop of getSpecificVersionAndUrl: try each enumerated
specific version in order, returning the first whose URL exists and is
confirmed by the probe. -/
def findValid (probe : String → Bool) (platform : String) :
    List String → Option (String × String)
  | [] => none
  | v :: rest =>
    match getUrl probe platform v with
    | none => findValid probe platform rest
    | some url => if probe url then some (v, url) else findValid probe platform rest

/-- The failure raised by the locator, naming the platform and the requested
version as the thrown Unsupported target message does. -/
inductive LocateError where
  | unsupportedTarget (platform version : String)
deriving DecidableEq

/-- getSpecificVersionAndUrl of part_001. -/
def getSpecificVersionAndUrl (probe : String → Bool) (platform version : String) :
    Except LocateError (String × String) :=
  if VERSIONS.contains version then
    match findValid probe platform (getSpecificVersions version) with
    | some r => .ok r
    | none => .error (.unsupportedTarget platform version)
  else
    .error (.unsupportedTarget platform version)

end Llvm

namespace Versions

/-- isVersionDefault of part_000: the version is the sentinel true or absent. -/
def isVersionDefault (version : Option String) : Bool :=
  version == some "true" || version == none

/-- The descending order used to model the JS numeric sort (a, b) => b - a. -/
def natGe (a b : Nat) : Prop := b ≤ a

instance : DecidableRel natGe := fun a b => inferInstanceAs (Decidable (b ≤ a))

instance : IsTotal Nat natGe := ⟨fun a b => Nat.le_total b a⟩

instance : IsTrans Nat natGe := ⟨fun _ _ _ h1 h2 => Nat.le_trans h2 h1⟩

/-- getDefaultLinuxVersion of part_000: sort the table keys in descending
order and pick the first key at most the host OS major version. The JS object
keys are unique; the table is modelled as an association list. An empty
osVersion array makes the JS comparison undefined >= v false for every key,
so no key satisfies and the result is empty. -/
def getDefaultLinuxVersion (osVersion : List Nat) (tbl : List (Nat × String)) : String :=
  match osVersion with
  | [] => ""
  | osMaj :: _ =>
    match ((tbl.map Prod.fst).insertionSort natGe).find? (fun v => decide (v ≤ osMaj)) with
    | some k => (tbl.lookup k).getD ""
    | none => ""

/-- getVersion of part_000. The platform is explicit instead of the ambient
process.platform, and the two default tables are explicit instead of the
imported default_versions module, which is not part of the sources. -/
def getVersion (platform name : String) (version : Option String)
    (osVersion : Option (List Nat))
    (du : List (String × List (Nat × String)))
    (dv : List (String × String)) : String :=
  if isVersionDefault version && platform == "linux" && osVersion.isSome
      && (du.lookup name).isSome then
    getDefaultLinuxVersion (osVersion.getD []) ((du.lookup name).getD [])
  else if isVersionDefault version && (dv.lookup name).isSome then
    (dv.lookup name).getD ""
  else if version == some "true" then ""
  else version.getD ""

/-- The toolsInUse constant of syncVersions in part_000: the listed tools
whose option is present. -/
def toolsInUse (opts : String → Option String) (tools : List String) : List String :=
  tools.filter (fun t => (opts t).isSome)

/-- The toolsNonDefaultVersion constant of syncVersions in part_000: the
in-use tools whose version is not the default sentinel. -/
def toolsNonDefaultVersion (opts : String → Option String) (tools : List String) :
    List String :=
  (toolsInUse opts tools).filter (fun t => !(isVersionDefault (opts t)))

/-- The targetVersion constant of syncVersions in part_000: the version of the
first non-default in-use tool, or the sentinel when there is none. -/
def targetVersion (opts : String → Option String) (tools : List String) : Option String :=
  match toolsNonDefaultVersion opts tools with
  | [] => some "true"
  | t :: _ => opts t

/-- syncVersions of part_000. The options record is modelled as a function
from tool names to their requested version, and the in-place mutation over
toolsInUse as the returned updated function. -/
def syncVersions (opts : String → Option String) (tools : List String) :
    Bool × (String → Option String) :=
  if (toolsNonDefaultVersion opts tools).any
      (fun t => opts t != targetVersion opts tools) then
    (false, opts)
  else
    (true, fun t =>
      if tools.contains t && (opts t).isSome then targetVersion opts tools else opts t)

/-- A concrete options record used to exercise syncVersions: gcc pinned to
version 12, llvm requested at its default, nothing else in use. -/
def optsExample : String → Option String := fun t =>
  if t = "gcc" then some "12" else if t = "llvm" then some "true" else none

/-- The tool list accompanying optsExample. -/
def toolsExample : List String := ["gcc", "llvm"]

/-- A tool request that carries an explicit version: present and not the
default sentinel. -/
def isExplicit (version : Option String) : Bool :=
  version.isSome && !(isVersionDefault version)

/-- The common target version that syncVersions writes, described directly
over the tool list: the version of the first tool carrying an explicit
version, or the sentinel when no tool does. -/
def syncTarget (opts : String → Option String) (tools : List String) : Option String :=
  match tools.filter (fun t => isExplicit (opts t)) with
  | [] => some "true"
  | t :: _ => opts t

end Versions

namespace Brew

/-- The cross-call state of the setupBrew module of part_000: the cached bin
directory, plus an instrumentation counter of how many times the expensive
download-and-run-installer step executed. -/
structure BrewState where
  binDir : Option String
  installs : Nat
deriving DecidableEq

/-- The host environment one setupBrew call observes: the platform, the CPU
architecture and the result of probing PATH for an existing brew binary. -/
structure BrewHost where
  platform : String
  arch : String
  whichBrew : Option String

/-- getBrewPath of part_000; none models the thrown unsupported-platform
error, which cannot occur at the call site inside setupBrew. -/
def getBrewPath (platform arch : String) : Option String :=
  if platform == "darwin" then
    if arch == "arm64" then some "/opt/homebrew/bin/" else some "/usr/local/bin/"
  else if platform == "linux" then
    some "/home/linuxbrew/.linuxbrew/bin/"
  else none

/-- setupBrew of part_000, as a state transformer. The dirname path utility
is an injected collaborator. The version, setup directory and arch arguments
of the source are ignored by it just as here. -/
def setupBrew (dirnameF : String → String) (h : BrewHost) (st : BrewState) :
    Option String × BrewState :=
  if !(h.platform == "darwin" || h.platform == "linux") then
    (none, st)
  else
    match st.binDir with
    | some bd => (some bd, st)
    | none =>
      match h.whichBrew with
      | some p => (some (dirnameF p), { st with binDir := some (dirnameF p) })
      | none =>
        match getBrewPath h.platform h.arch with
        | some bd => (some bd, { binDir := some bd, installs := st.installs + 1 })
        | none => (none, { st with installs := st.installs + 1 })

/-- A sequence of setupBrew calls, threading the module state. -/
def brewRun (dirnameF : String → String) (hosts : List BrewHost) (st : BrewState) :
    BrewState :=
  match hosts with
  | [] => st
  | h :: rest => brewRun dirnameF rest (setupBrew dirnameF h st).2

end Brew

namespace Memo

/-- Modelled from the spec: the micro-memoize memoize wrapper used for
setupLLVMWithoutActivation, llvmBinaryDeps and setupLLVMDeps in llvm.ts is a
third-party dependency whose code is not under the sources; per section 4.4
it caches the result of the wrapped producer per distinct key and shares one
result among all callers with that key. The state is the cache plus an
instrumentation list of the keys on which the producer actually ran. -/
structure MemoState (κ ρ : Type) where
  cache : List (κ × ρ)
  calls : List κ

/-- Lookup in the memoization cache. -/
def assocFind {κ ρ : Type} [DecidableEq κ] : κ → List (κ × ρ) → Option ρ
  | _, [] => none
  | key, (k, r) :: rest => if key = k then some r else assocFind key rest

/-- Modelled from the spec: one call through the memoize wrapper. A cache hit
returns the stored result; a miss runs the producer once and stores it. -/
def memoCall {κ ρ : Type} [DecidableEq κ] (producer : κ → ρ)
    (st : MemoState κ ρ) (k : κ) : ρ × MemoState κ ρ :=
  match assocFind k st.cache with
  | some r => (r, st)
  | none => (producer k, ⟨(k, producer k) :: st.cache, k :: st.calls⟩)

/-- A sequence of memoized calls, returning all results and the final state. -/
def memoRun {κ ρ : Type} [DecidableEq κ] (producer : κ → ρ) :
    List κ → MemoState κ ρ → List ρ × MemoState κ ρ
  | [], st => ([], st)
  | k :: ks, st =>
    let p := memoCall producer st k
    let rest := memoRun producer ks p.2
    (p.1 :: rest.1, rest.2)

end Memo

namespace Activate

/-- The environment variables activateLLVM of llvm.ts writes through addEnv.
A field holds none when the variable is unset. -/
structure CompilerEnv where
  llvmPath : Option String
  ldLibraryPath : Option String
  dyldLibraryPath : Option String
  ldflags : Option String
  cppflags : Option String
  cc : Option String
  cxx : Option String
  libraryPath : Option String
deriving DecidableEq

/-- activateLLVM of llvm.ts, restricted to its environment-variable effect.
Modelled from the spec for the addEnv collaborator (section 6): addEnv sets
the named variable to the given value, last writer wins; the search-path
prepending is done by activateLLVM itself, which reads the current
LD_LIBRARY_PATH and DYLD_LIBRARY_PATH (empty when unset) and prepends the
lib directory with the platform path delimiter. The delimiter and the
executable extension that addExeExt appends are parameters of the platform.
The process-spawning steps (setupMacOSSDK, update-alternatives on Ubuntu)
are external side effects outside the environment state. -/
def activateLLVM (delim exeExt directory : String) (e : CompilerEnv) : CompilerEnv :=
  let ld := e.ldLibraryPath.getD ""
  let dyld := e.dyldLibraryPath.getD ""
  { llvmPath := some directory
    ldLibraryPath := some (directory ++ "/lib" ++ delim ++ ld)
    dyldLibraryPath := some (directory ++ "/lib" ++ delim ++ dyld)
    ldflags := some ("-L\"" ++ directory ++ "/lib\"")
    cppflags := some ("-I\"" ++ directory ++ "/include\"")
    cc := some (directory ++ "/bin/clang" ++ exeExt)
    cxx := some (directory ++ "/bin/clang++" ++ exeExt)
    libraryPath := some (directory ++ "/lib") }

end Activate

namespace RcFile

/-- The JS Set construction over a list: keep the first occurrence of each
element, in order. -/
def jsSetDedup : List String → List String → List String
  | _, [] => []
  | seen, x :: xs =>
    if seen.contains x then jsSetDedup seen xs
    else x :: jsSetDedup (x :: seen) xs

/-- finalizeRC of rc-file.ts at the level of the rc-file lines: reverse the
entries, drop duplicates keeping the first occurrence of the reversed list
(hence the latest entry), and reverse back. -/
def finalizeRCLines (entries : List String) : List String :=
  (jsSetDedup [] entries.reverse).reverse

end RcFile

namespace Strategy

/-- setupLLVMOnly of llvm.ts, restricted to its strategy-fallback control
flow: the outcomes of the two strategies are injected. On Ubuntu the apt
installer runs first inside a try block; a throw is logged and discarded and
the archive-download strategy (setupBin followed by llvmBinaryDeps) runs.
Off Ubuntu the archive-download strategy runs directly. -/
def setupLLVMOnly {α : Type} (isUbuntu : Bool)
    (aptResult : Except String α) (binResult : Except String α) : Except String α :=
  if isUbuntu then
    match aptResult with
    | .ok r => .ok r
    | .error _ => binResult
  else binResult

/-- setupPipPackWithPython of addPath.ts, restricted to its fallback control
flow: when pip knows the package, a pip failure falls back to the system
package manager and only a missing or failing system manager is fatal; when
pip does not know the package, the system package manager is tried directly.
The outcome of setupPipPackSystem is none when no system manager applies
(the JS null). The error messages are injected opaquely. -/
def setupPipPackWithPython {α : Type} (hasPackage : Bool)
    (pipInstall : Except String Unit) (systemInstall : Option (Except String Unit))
    (pipFailMsg notFoundMsg : String) (binDir : α) : Except String α :=
  if hasPackage then
    match pipInstall with
    | .ok _ => .ok binDir
    | .error _ =>
      match systemInstall with
      | none => .error pipFailMsg
      | some (.error e) => .error e
      | some (.ok _) => .ok binDir
  else
    match systemInstall with
    | none => .error notFoundMsg
    | some (.error e) => .error e
    | some (.ok _) => .ok binDir

end Strategy

namespace JsStr

theorem charListLt_trichotomy : ∀ as bs : List Char,
    charListLt as bs = true ∨ charListLt bs as = true ∨ as = bs
  | [], [] => Or.inr (Or.inr rfl)
  | [], _ :: _ => Or.inl rfl
  | _ :: _, [] => Or.inr (Or.inl rfl)
  | a :: as, b :: bs => by
    rcases lt_trichotomy a b with h | h | h
    · left
      simp [charListLt, h]
    · subst h
      rcases charListLt_trichotomy as bs with h2 | h2 | h2
      · left
        simp [charListLt, lt_irrefl, h2]
      · right; left
        simp [charListLt, lt_irrefl, h2]
      · right; right
        rw [h2]
    · right; left
      simp [charListLt, h]

theorem charListLt_trans (as : List Char) : ∀ bs cs,
    charListLt as bs = true → charListLt bs cs = true → charListLt as cs = true := by
  induction as with
  | nil =>
    intro bs cs h1 h2
    cases bs with
    | nil => simp [charListLt] at h1
    | cons b bs =>
      cases cs with
      | nil => simp [charListLt] at h2
      | cons c cs => simp [charListLt]
  | cons a as ih =>
    intro bs cs h1 h2
    cases bs with
    | nil => simp [charListLt] at h1
    | cons b bs =>
      cases cs with
      | nil => simp [charListLt] at h2
      | cons c cs =>
        simp only [charListLt] at h1 h2 ⊢
        by_cases hab : a < b
        · by_cases hbc : b < c
          · simp [lt_trans hab hbc]
          · by_cases hcb : c < b
            · simp [hbc, hcb] at h2
            · have hbceq : b = c := le_antisymm (not_lt.mp hcb) (not_lt.mp hbc)
              subst hbceq
              simp [hab]
        · by_cases hba : b < a
          · simp [hab, hba] at h1
          · have habeq : a = b := le_antisymm (not_lt.mp hba) (not_lt.mp hab)
            subst habeq
            simp only [lt_irrefl, if_false] at h1
            by_cases hac : a < c
            · simp [hac]
            · by_cases hca : c < a
              · simp [hac, hca] at h2
              · have haceq : a = c := le_antisymm (not_lt.mp hca) (not_lt.mp hac)
                subst haceq
                simp only [lt_irrefl, if_false] at h2 ⊢
                exact ih bs cs h1 h2

theorem string_eq_of_data_eq (a b : String) (h : a.data = b.data) : a = b := by
  cases a
  cases b
  simp_all

instance : IsTotal String strLeR := by
  refine ⟨fun a b => ?_⟩
  rcases charListLt_trichotomy a.data b.data with h | h | h
  · left
    simp [strLeR, strLeB, strLtB, h]
  · right
    simp [strLeR, strLeB, strLtB, h]
  · left
    have hab : a = b := string_eq_of_data_eq a b h
    subst hab
    simp [strLeR, strLeB]

instance : IsTrans String strLeR := by
  refine ⟨fun a b c h1 h2 => ?_⟩
  simp only [strLeR, strLeB, strLtB, Bool.or_eq_true, decide_eq_true_eq] at h1 h2 ⊢
  rcases h1 with h1 | h1
  · rcases h2 with h2 | h2
    · exact Or.inl (charListLt_trans a.data b.data c.data h1 h2)
    · subst h2
      exact Or.inl h1
  · subst h1
    exact h2

end JsStr

namespace Llvm

open JsStr

theorem versions_nodup : VERSIONS.Nodup := by decide

theorem specific_mem_versions : ∀ v ∈ SPECIFIC, v ∈ VERSIONS ∧ isSpecific v = true := by
  decide

theorem versions_specific_mem : ∀ v ∈ VERSIONS, isSpecific v = true → v ∈ SPECIFIC := by
  decide

theorem findValid_eq (probe : String → Bool) (platform : String) (l : List String) :
    findValid probe platform l
      = (l.find? (candidateOk probe platform)).map
          (fun v => (v, (getUrl probe platform v).getD "")) := by
  induction l with
  | nil => rfl
  | cons v rest ih =>
    cases hu : getUrl probe platform v with
    | none =>
      have hc : candidateOk probe platform v = false := by
        simp [candidateOk, hu]
      rw [findValid, hu]
      dsimp only
      rw [List.find?_cons_of_neg _ (by simp [hc])]
      exact ih
    | some url =>
      by_cases hp : probe url = true
      · have hc : candidateOk probe platform v = true := by
          simp [candidateOk, hu, hp]
        rw [findValid, hu]
        dsimp only
        rw [List.find?_cons_of_pos _ hc, if_pos hp]
        simp [hu]
      · have hpf : probe url = false := by simpa using hp
        have hc : candidateOk probe platform v = false := by
          simp [candidateOk, hu, hpf]
        rw [findValid, hu]
        dsimp only
        rw [List.find?_cons_of_neg _ (by simp [hc]), if_neg (by simp [hpf])]
        exact ih

theorem locator_ok_findValid (probe : String → Bool) (platform req v url : String)
    (h : getSpecificVersionAndUrl probe platform req = .ok (v, url)) :
    findValid probe platform (getSpecificVersions req) = some (v, url) := by
  unfold getSpecificVersionAndUrl at h
  by_cases hc : VERSIONS.contains req = true
  · rw [if_pos hc] at h
    cases hf : findValid probe platform (getSpecificVersions req) with
    | none => rw [hf] at h; exact absurd h (by simp)
    | some r =>
      rw [hf] at h
      cases h
      rfl
  · rw [if_neg hc] at h
    exact absurd h (by simp)

theorem findValid_ok_candidate (probe : String → Bool) (platform : String)
    (l : List String) (v url : String)
    (h : findValid probe platform l = some (v, url)) :
    candidateOk probe platform v = true := by
  rw [findValid_eq] at h
  cases hf : l.find? (candidateOk probe platform) with
  | none => rw [hf] at h; exact absurd h (by simp)
  | some sv =>
    rw [hf] at h
    simp only [Option.map] at h
    cases h
    exact List.find?_some hf

theorem locator_eq (probe : String → Bool) (platform v : String) :
    getSpecificVersionAndUrl probe platform v =
      if VERSIONS.contains v then
        match (getSpecificVersions v).find? (candidateOk probe platform) with
        | some sv => .ok (sv, (getUrl probe platform sv).getD "")
        | none => .error (.unsupportedTarget platform v)
      else .error (.unsupportedTarget platform v) := by
  unfold getSpecificVersionAndUrl
  rw [findValid_eq]
  by_cases hc : VERSIONS.contains v = true
  · rw [if_pos hc, if_pos hc]
    cases hf : (getSpecificVersions v).find? (candidateOk probe platform) <;> rfl
  · rw [if_neg hc, if_neg hc]

end Llvm

/-- C1: for every requested version prefix, getSpecificVersions enumerates
exactly the specific major.minor.patch registry versions whose string starts
with the prefix, in strictly descending lexical order, and
getSpecificVersionAndUrl returns the first enumerated candidate whose
constructed URL the injected probe confirms, paired with that URL; in
particular requesting 9 on darwin enumerates 9.0.1 then 9.0.0 and returns the
first of those two whose URL the probe confirms. -/
theorem llvm_enumeration_spec :
    (∀ p v, v ∈ Llvm.getSpecificVersions p ↔
      (v ∈ Llvm.SPECIFIC ∧ JsStr.strStartsWith v p = true))
    ∧ (∀ p, (Llvm.getSpecificVersions p).Pairwise (fun a b => JsStr.strLtB b a = true))
    ∧ Llvm.getSpecificVersions "9" = ["9.0.1", "9.0.0"]
    ∧ (∀ probe platform v,
        Llvm.getSpecificVersionAndUrl probe platform v =
          if Llvm.VERSIONS.contains v then
            match (Llvm.getSpecificVersions v).find? (Llvm.candidateOk probe platform) with
            | some sv => .ok (sv, (Llvm.getUrl probe platform sv).getD "")
            | none => .error (.unsupportedTarget platform v)
          else .error (.unsupportedTarget platform v))
    ∧ Llvm.getSpecificVersionAndUrl (fun _ => true) "darwin" "9"
        = .ok ("9.0.1",
            "https://releases.llvm.org/9.0.1/clang+llvm-9.0.1-x86_64-apple-darwin.tar.xz")
    ∧ Llvm.getSpecificVersionAndUrl
          (fun u =>
            !(u == "https://releases.llvm.org/9.0.1/clang+llvm-9.0.1-x86_64-apple-darwin.tar.xz"))
          "darwin" "9"
        = .ok ("9.0.0",
            "https://releases.llvm.org/9.0.0/clang+llvm-9.0.0-x86_64-darwin-apple.tar.xz") := by
  refine ⟨?_, ?_, by decide, ?_, by rfl, by rfl⟩
  · intro p v
    unfold Llvm.getSpecificVersions
    rw [List.mem_reverse, (List.perm_insertionSort JsStr.strLeR _).mem_iff, List.mem_filter]
    constructor
    · rintro ⟨hv, hf⟩
      simp only [Llvm.versionFilter, Bool.and_eq_true] at hf
      exact ⟨Llvm.versions_specific_mem v hv hf.1, hf.2⟩
    · rintro ⟨hs, hst⟩
      have hv := Llvm.specific_mem_versions v hs
      exact ⟨hv.1, by simp [Llvm.versionFilter, hv.2, hst]⟩
  · intro p
    have hsorted : (((Llvm.VERSIONS.filter (Llvm.versionFilter p)).insertionSort
        JsStr.strLeR)).Pairwise JsStr.strLeR :=
      List.sorted_insertionSort JsStr.strLeR _
    have hnodup : (((Llvm.VERSIONS.filter (Llvm.versionFilter p)).insertionSort
        JsStr.strLeR)).Nodup :=
      ((List.perm_insertionSort JsStr.strLeR _).nodup_iff).mpr
        (Llvm.versions_nodup.filter _)
    unfold Llvm.getSpecificVersions
    rw [List.pairwise_reverse]
    refine (hsorted.and hnodup).imp ?_
    intro a b hab
    obtain ⟨h1, h2⟩ := hab
    simp only [JsStr.strLeR, JsStr.strLeB, Bool.or_eq_true, decide_eq_true_eq] at h1
    rcases h1 with h1 | h1
    · exact h1
    · exact absurd h1 h2
  · intro probe platform v
    exact Llvm.locator_eq probe platform v

/-- C2: the darwin and win32 missing-version exception sets are honored: the
per-platform URL builders yield no URL for versions in them, and the locator
never returns such a version for that platform, whatever the probe and the
requested version. -/
theorem llvm_missing_exceptions_spec :
    (∀ v ∈ Llvm.DARWIN_MISSING, Llvm.getDarwinUrl v = none)
    ∧ (∀ (probe : String → Bool), ∀ v ∈ Llvm.WIN32_MISSING, Llvm.getWin32Url probe v = none)
    ∧ (∀ (probe : String → Bool) (req v url : String),
        Llvm.getSpecificVersionAndUrl probe "darwin" req = .ok (v, url)
          → v ∉ Llvm.DARWIN_MISSING)
    ∧ (∀ (probe : String → Bool) (req v url : String),
        Llvm.getSpecificVersionAndUrl probe "win32" req = .ok (v, url)
          → v ∉ Llvm.WIN32_MISSING) := by
  refine ⟨by decide, ?_, ?_, ?_⟩
  · intro probe v hv
    have : v = "10.0.1" := by simpa [Llvm.WIN32_MISSING] using hv
    subst this
    rfl
  · intro probe req v url h hm
    have hcand := Llvm.findValid_ok_candidate probe "darwin" _ v url
      (Llvm.locator_ok_findValid probe "darwin" req v url h)
    have hall : ∀ x ∈ Llvm.DARWIN_MISSING, Llvm.getDarwinUrl x = none := by decide
    have hurl : Llvm.getUrl probe "darwin" v = Llvm.getDarwinUrl v := rfl
    have hfalse : Llvm.candidateOk probe "darwin" v = false := by
      unfold Llvm.candidateOk
      rw [hurl, hall v hm]
    rw [hfalse] at hcand
    exact absurd hcand (by simp)
  · intro probe req v url h hm
    have hcand := Llvm.findValid_ok_candidate probe "win32" _ v url
      (Llvm.locator_ok_findValid probe "win32" req v url h)
    have hv : v = "10.0.1" := by simpa [Llvm.WIN32_MISSING] using hm
    subst hv
    have hurl : Llvm.getUrl probe "win32" "10.0.1" = none := rfl
    have hfalse : Llvm.candidateOk probe "win32" "10.0.1" = false := by
      unfold Llvm.candidateOk
      rw [hurl]
    rw [hfalse] at hcand
    exact absurd hcand (by simp)

/-- C2 witness: concrete successful locator runs on darwin and win32, whose
returned versions the theorem shows are outside the exception sets, plus the
builders evaluated on members of the exception sets. -/
theorem llvm_missing_exceptions_spec_witness :
    ("12.0.0" ∉ Llvm.DARWIN_MISSING ∧ "12.0.1" ∉ Llvm.WIN32_MISSING)
      ∧ Llvm.getDarwinUrl "12.0.1" = none
      ∧ Llvm.getWin32Url (fun _ => true) "10.0.1" = none :=
  ⟨⟨llvm_missing_exceptions_spec.2.2.1 (fun _ => true) "12" "12.0.0"
      "https://github.com/llvm/llvm-project/releases/download/llvmorg-12.0.0/clang+llvm-12.0.0-x86_64-apple-darwin.tar.xz"
      (by rfl),
    llvm_missing_exceptions_spec.2.2.2 (fun _ => true) "12" "12.0.1"
      "https://github.com/llvm/llvm-project/releases/download/llvmorg-12.0.1/LLVM-12.0.1-win64.exe"
      (by rfl)⟩,
   llvm_missing_exceptions_spec.1 "12.0.1" (by decide),
   llvm_missing_exceptions_spec.2.1 (fun _ => true) "10.0.1" (by decide)⟩

/-- C7: the locator fails with the UnsupportedTarget error naming the platform
and the requested version exactly when the requested version is outside the
known-version set or no enumerated candidate passes the URL existence check;
in every other case it returns a version and URL pair. -/
theorem llvm_locator_error_spec :
    ∀ (probe : String → Bool) (platform v : String),
      (Llvm.getSpecificVersionAndUrl probe platform v
          = .error (.unsupportedTarget platform v)
        ↔ (Llvm.VERSIONS.contains v = false
            ∨ (Llvm.getSpecificVersions v).all
                (fun sv => !(Llvm.candidateOk probe platform sv)) = true))
      ∧ ((∃ r, Llvm.getSpecificVersionAndUrl probe platform v = .ok r)
          ∨ Llvm.getSpecificVersionAndUrl probe platform v
              = .error (.unsupportedTarget platform v)) := by
  intro probe platform v
  rw [Llvm.locator_eq]
  by_cases hc : Llvm.VERSIONS.contains v = true
  · rw [if_pos hc]
    cases hf : (Llvm.getSpecificVersions v).find? (Llvm.candidateOk probe platform) with
    | none =>
      refine ⟨⟨fun _ => Or.inr ?_, fun _ => rfl⟩, Or.inr rfl⟩
      rw [List.all_eq_true]
      intro sv hsv
      have hn := List.find?_eq_none.mp hf sv hsv
      simp only [Bool.not_eq_true] at hn ⊢
      simp [hn]
    | some sv =>
      have hsv := List.find?_some hf
      refine ⟨⟨fun h => absurd h (by simp), fun h => ?_⟩,
        Or.inl ⟨(sv, (Llvm.getUrl probe platform sv).getD ""), rfl⟩⟩
      rcases h with h | h
      · rw [hc] at h
        exact absurd h (by simp)
      · rw [List.all_eq_true] at h
        have hh := h sv (List.mem_of_find?_eq_some hf)
        rw [hsv] at hh
        exact absurd hh (by simp)
  · rw [if_neg hc]
    exact ⟨⟨fun _ => Or.inl (by simpa using hc), fun _ => rfl⟩, Or.inr rfl⟩

namespace Versions

theorem isVersionDefault_some (v : String) :
    isVersionDefault (some v) = (v == "true") :=
  Bool.or_false _

theorem isVersionDefault_none : isVersionDefault none = true := rfl

theorem find_desc_max (m : Nat) :
    ∀ l : List Nat, l.Pairwise natGe →
      ∀ k, l.find? (fun v => decide (v ≤ m)) = some k →
        k ∈ l ∧ k ≤ m ∧ ∀ j ∈ l, j ≤ m → j ≤ k := by
  intro l
  induction l with
  | nil =>
    intro _ k h
    exact absurd h (by simp)
  | cons a l ih =>
    intro hp k h
    rcases List.pairwise_cons.mp hp with ⟨ha, hp2⟩
    by_cases hm : a ≤ m
    · rw [List.find?_cons_of_pos _ (by simpa using hm)] at h
      cases h
      refine ⟨List.mem_cons_self a l, hm, ?_⟩
      intro j hj hjm
      rcases List.mem_cons.mp hj with rfl | hj
      · exact le_refl j
      · exact ha j hj
    · rw [List.find?_cons_of_neg _ (by simpa using hm)] at h
      obtain ⟨hk1, hk2, hk3⟩ := ih hp2 k h
      refine ⟨List.mem_cons_of_mem a hk1, hk2, ?_⟩
      intro j hj hjm
      rcases List.mem_cons.mp hj with rfl | hj
      · exact absurd hjm hm
      · exact hk3 j hj hjm

theorem getDefaultLinuxVersion_cons (osMaj : Nat) (rest : List Nat)
    (tbl : List (Nat × String)) :
    getDefaultLinuxVersion (osMaj :: rest) tbl =
      match ((tbl.map Prod.fst).insertionSort natGe).find?
          (fun v => decide (v ≤ osMaj)) with
      | some k => (tbl.lookup k).getD ""
      | none => "" := rfl

end Versions

/-- C3: for the default sentinel (or an absent version) on Linux with an
OS-release-scoped table for the tool, getVersion returns the table entry at
the largest key at most the host OS major version and the empty string when
no key qualifies; otherwise the platform-independent default applies when
present, the bare sentinel with no table entry yields the empty string, and
any other requested version is returned unchanged. -/
theorem versions_getVersion_spec
    (platform name : String) (ver : Option String) (osMaj : Nat) (osRest : List Nat)
    (osOpt : Option (List Nat)) (tbl : List (Nat × String))
    (du : List (String × List (Nat × String))) (dv : List (String × String)) :
    (∀ k, Versions.isVersionDefault ver = true → du.lookup name = some tbl →
      k ∈ tbl.map Prod.fst → k ≤ osMaj →
      (∀ j ∈ tbl.map Prod.fst, j ≤ osMaj → j ≤ k) →
      Versions.getVersion "linux" name ver (some (osMaj :: osRest)) du dv
        = (tbl.lookup k).getD "")
    ∧ (Versions.isVersionDefault ver = true → du.lookup name = some tbl →
      (∀ j ∈ tbl.map Prod.fst, ¬ j ≤ osMaj) →
      Versions.getVersion "linux" name ver (some (osMaj :: osRest)) du dv = "")
    ∧ (∀ d, Versions.isVersionDefault ver = true →
      (Versions.isVersionDefault ver && (platform == "linux") && osOpt.isSome
        && (du.lookup name).isSome) = false →
      dv.lookup name = some d →
      Versions.getVersion platform name ver osOpt du dv = d)
    ∧ (du.lookup name = none → dv.lookup name = none →
      Versions.getVersion platform name (some "true") osOpt du dv = ""
        ∧ Versions.getVersion platform name none osOpt du dv = "")
    ∧ (∀ v, v ≠ "true" →
      Versions.getVersion platform name (some v) osOpt du dv = v) := by
  refine ⟨?_, ?_, ?_, ?_, ?_⟩
  · intro k hdef htbl hk hkle hmax
    have hred : Versions.getVersion "linux" name ver (some (osMaj :: osRest)) du dv
        = Versions.getDefaultLinuxVersion (osMaj :: osRest) tbl := by
      simp [Versions.getVersion, hdef, htbl]
    rw [hred, Versions.getDefaultLinuxVersion_cons]
    have hpw : (((tbl.map Prod.fst).insertionSort Versions.natGe)).Pairwise Versions.natGe :=
      List.sorted_insertionSort Versions.natGe _
    cases hf : ((tbl.map Prod.fst).insertionSort Versions.natGe).find?
        (fun v => decide (v ≤ osMaj)) with
    | none =>
      exfalso
      have hmem : k ∈ (tbl.map Prod.fst).insertionSort Versions.natGe :=
        ((List.perm_insertionSort Versions.natGe _).mem_iff).mpr hk
      have hno := List.find?_eq_none.mp hf k hmem
      simp only [decide_eq_true_eq] at hno
      exact hno hkle
    | some k0 =>
      obtain ⟨h0mem, h0le, h0max⟩ := Versions.find_desc_max osMaj _ hpw k0 hf
      have hk0keys : k0 ∈ tbl.map Prod.fst :=
        ((List.perm_insertionSort Versions.natGe _).mem_iff).mp h0mem
      have hkmem : k ∈ (tbl.map Prod.fst).insertionSort Versions.natGe :=
        ((List.perm_insertionSort Versions.natGe _).mem_iff).mpr hk
      have h1 : k ≤ k0 := h0max k hkmem hkle
      have h2 : k0 ≤ k := hmax k0 hk0keys h0le
      have hk0 : k0 = k := le_antisymm h2 h1
      subst hk0
      rfl
  · intro hdef htbl hnone
    have hred : Versions.getVersion "linux" name ver (some (osMaj :: osRest)) du dv
        = Versions.getDefaultLinuxVersion (osMaj :: osRest) tbl := by
      simp [Versions.getVersion, hdef, htbl]
    rw [hred, Versions.getDefaultLinuxVersion_cons]
    cases hf : ((tbl.map Prod.fst).insertionSort Versions.natGe).find?
        (fun v => decide (v ≤ osMaj)) with
    | none => rfl
    | some k0 =>
      exfalso
      have hpw : (((tbl.map Prod.fst).insertionSort Versions.natGe)).Pairwise
          Versions.natGe :=
        List.sorted_insertionSort Versions.natGe _
      obtain ⟨h0mem, h0le, _⟩ := Versions.find_desc_max osMaj _ hpw k0 hf
      have hk0keys : k0 ∈ tbl.map Prod.fst :=
        ((List.perm_insertionSort Versions.natGe _).mem_iff).mp h0mem
      exact hnone k0 hk0keys h0le
  · intro d hdef hcond hdv
    have hcond2 : ¬((Versions.isVersionDefault ver && (platform == "linux")
        && osOpt.isSome && (du.lookup name).isSome) = true) := by
      rw [hcond]
      simp
    have hcond3 : (Versions.isVersionDefault ver && (dv.lookup name).isSome) = true := by
      rw [hdef, hdv]
      rfl
    unfold Versions.getVersion
    rw [if_neg hcond2, if_pos hcond3, hdv]
    rfl
  · intro hdu hdv
    constructor
    · have h1 : Versions.isVersionDefault (some "true") = true := rfl
      simp [Versions.getVersion, h1, hdu, hdv]
    · have h1 : Versions.isVersionDefault (none : Option String) = true := rfl
      have h2 : ((none : Option String) == some "true") = false := rfl
      simp [Versions.getVersion, h1, h2, hdu, hdv]
  · intro v hv
    have hb : (v == "true") = false := by
      simp [hv]
    have hd : Versions.isVersionDefault (some v) = false := by
      rw [Versions.isVersionDefault_some, hb]
    have h3 : ((some v : Option String) == some "true") = (v == "true") := rfl
    simp [Versions.getVersion, hd, h3, hb]

/-- C3 witness: the worked example of the spec, a table with keys 20 and 22
on host major versions 22 and 21, plus the pass-through of an explicit
version. -/
theorem versions_getVersion_spec_witness :
    Versions.getVersion "linux" "gcc" none (some [22])
        [("gcc", [(20, "10"), (22, "11")])] [] = "11"
      ∧ Versions.getVersion "linux" "gcc" none (some [21])
        [("gcc", [(20, "10"), (22, "11")])] [] = "10"
      ∧ Versions.getVersion "linux" "llvm" (some "12") none [] [] = "12" :=
  ⟨((versions_getVersion_spec "linux" "gcc" none 22 [] (some [22])
        [(20, "10"), (22, "11")] [("gcc", [(20, "10"), (22, "11")])] []).1
      22 (by decide) (by decide) (by decide) (by decide) (by decide)).trans (by decide),
   ((versions_getVersion_spec "linux" "gcc" none 21 [] (some [21])
        [(20, "10"), (22, "11")] [("gcc", [(20, "10"), (22, "11")])] []).1
      20 (by decide) (by decide) (by decide) (by decide) (by decide)).trans (by decide),
   (versions_getVersion_spec "linux" "llvm" (some "12") 0 [] none [] [] []).2.2.2.2
      "12" (by decide)⟩

namespace Versions

theorem toolsNonDefault_eq_filter_explicit (opts : String → Option String)
    (tools : List String) :
    toolsNonDefaultVersion opts tools = tools.filter (fun t => isExplicit (opts t)) := by
  unfold toolsNonDefaultVersion toolsInUse
  rw [List.filter_filter]
  apply List.filter_congr
  intro t _
  rw [Bool.and_comm]
  rfl

theorem targetVersion_eq_syncTarget (opts : String → Option String)
    (tools : List String) :
    targetVersion opts tools = syncTarget opts tools := by
  unfold targetVersion syncTarget
  rw [toolsNonDefault_eq_filter_explicit]

end Versions

/-- C10: syncVersions returns false exactly when two in-use tools carry
distinct explicit versions; when it returns true it has overwritten the
version of every in-use tool with one common target, the explicit version of
the first in-use tool carrying one or the default sentinel when none does,
leaving tools not in use unchanged. -/
theorem versions_syncVersions_spec (opts : String → Option String) (tools : List String) :
    ((Versions.syncVersions opts tools).1 = false ↔
      ∃ t1 t2, t1 ∈ tools ∧ t2 ∈ tools
        ∧ Versions.isExplicit (opts t1) = true ∧ Versions.isExplicit (opts t2) = true
        ∧ opts t1 ≠ opts t2)
    ∧ ((Versions.syncVersions opts tools).1 = true →
      ∀ t, ((tools.contains t && (opts t).isSome) = true →
          (Versions.syncVersions opts tools).2 t = Versions.syncTarget opts tools)
        ∧ ((tools.contains t && (opts t).isSome) = false →
          (Versions.syncVersions opts tools).2 t = opts t)) := by
  have hfus := Versions.toolsNonDefault_eq_filter_explicit opts tools
  constructor
  · cases hL : tools.filter (fun t => Versions.isExplicit (opts t)) with
    | nil =>
      have hnd : Versions.toolsNonDefaultVersion opts tools = [] := hfus.trans hL
      constructor
      · intro hfalse
        exfalso
        unfold Versions.syncVersions at hfalse
        rw [hnd] at hfalse
        simp at hfalse
      · rintro ⟨t1, t2, ht1, ht2, he1, he2, hne⟩
        exfalso
        have hm : t1 ∈ tools.filter (fun t => Versions.isExplicit (opts t)) :=
          List.mem_filter.mpr ⟨ht1, he1⟩
        rw [hL] at hm
        exact absurd hm (by simp)
    | cons h rest =>
      have hnd : Versions.toolsNonDefaultVersion opts tools = h :: rest := hfus.trans hL
      have htarget : Versions.targetVersion opts tools = opts h := by
        unfold Versions.targetVersion
        rw [hnd]
      have hh : h ∈ tools ∧ Versions.isExplicit (opts h) = true := by
        have hm : h ∈ tools.filter (fun t => Versions.isExplicit (opts t)) := by
          rw [hL]
          exact List.mem_cons_self h rest
        exact List.mem_filter.mp hm
      constructor
      · intro hfalse
        by_cases hany : ((h :: rest).any (fun t => opts t != opts h)) = true
        · obtain ⟨t, ht, hbne⟩ := List.any_eq_true.mp hany
          have htm : t ∈ tools.filter (fun t => Versions.isExplicit (opts t)) := by
            rw [hL]
            exact ht
          have htf := List.mem_filter.mp htm
          refine ⟨h, t, hh.1, htf.1, hh.2, htf.2, ?_⟩
          intro he
          rw [bne_iff_ne] at hbne
          exact hbne he.symm
        · exfalso
          unfold Versions.syncVersions at hfalse
          rw [hnd, htarget] at hfalse
          rw [if_neg (by rw [Bool.not_eq_true] at hany; rw [hany]; simp)] at hfalse
          simp at hfalse
      · rintro ⟨t1, t2, ht1, ht2, he1, he2, hne⟩
        have hm1 : t1 ∈ h :: rest := by
          rw [← hL]
          exact List.mem_filter.mpr ⟨ht1, he1⟩
        have hm2 : t2 ∈ h :: rest := by
          rw [← hL]
          exact List.mem_filter.mpr ⟨ht2, he2⟩
        have hone : (opts t1 ≠ opts h) ∨ (opts t2 ≠ opts h) := by
          by_cases hc1 : opts t1 = opts h
          · right
            intro hc2
            exact hne (hc1.trans hc2.symm)
          · exact Or.inl hc1
        have hany : ((h :: rest).any (fun t => opts t != opts h)) = true := by
          rcases hone with hc | hc
          · exact List.any_eq_true.mpr ⟨t1, hm1, bne_iff_ne.mpr hc⟩
          · exact List.any_eq_true.mpr ⟨t2, hm2, bne_iff_ne.mpr hc⟩
        unfold Versions.syncVersions
        rw [hnd, htarget, if_pos hany]
  · intro htrue t
    have hval : Versions.syncVersions opts tools
        = (true, fun t =>
            if tools.contains t && (opts t).isSome then
              Versions.targetVersion opts tools
            else opts t) := by
      unfold Versions.syncVersions at htrue ⊢
      by_cases hany : ((Versions.toolsNonDefaultVersion opts tools).any
          (fun t => opts t != Versions.targetVersion opts tools)) = true
      · rw [if_pos hany] at htrue
        exact absurd htrue (by simp)
      · rw [if_neg hany]
    constructor
    · intro hc
      rw [hval]
      dsimp only
      rw [if_pos hc, Versions.targetVersion_eq_syncTarget]
    · intro hc
      rw [hval]
      dsimp only
      rw [if_neg (by rw [hc]; simp)]

/-- C10 witness: on the example options with gcc pinned to 12 and llvm at its
default, synchronization succeeds, overwrites the llvm version with 12 and
leaves a tool not in use untouched. -/
theorem versions_syncVersions_spec_witness :
    (Versions.syncVersions Versions.optsExample Versions.toolsExample).1 = true
      ∧ (Versions.syncVersions Versions.optsExample Versions.toolsExample).2 "llvm"
          = some "12"
      ∧ (Versions.syncVersions Versions.optsExample Versions.toolsExample).2 "cmake"
          = none := by
  have htrue : (Versions.syncVersions Versions.optsExample Versions.toolsExample).1
      = true := by decide
  refine ⟨htrue, ?_, ?_⟩
  · have h := ((versions_syncVersions_spec Versions.optsExample
        Versions.toolsExample).2 htrue "llvm").1 (by decide)
    exact h.trans (by decide)
  · have h := ((versions_syncVersions_spec Versions.optsExample
        Versions.toolsExample).2 htrue "cmake").2 (by decide)
    exact h.trans (by decide)

namespace Brew

theorem getBrewPath_isSome (platform arch : String)
    (h : (platform == "darwin" || platform == "linux") = true) :
    (getBrewPath platform arch).isSome = true := by
  simp only [Bool.or_eq_true, beq_iff_eq] at h
  rcases h with hp | hp
  · subst hp
    by_cases ha : (arch == "arm64") = true
    · simp [getBrewPath, ha]
    · simp only [Bool.not_eq_true] at ha
      simp [getBrewPath, ha]
  · subst hp
    rfl

theorem setupBrew_second_call (dirnameF : String → String) (h : BrewHost)
    (st : BrewState) :
    setupBrew dirnameF h (setupBrew dirnameF h st).2
      = ((setupBrew dirnameF h st).1, (setupBrew dirnameF h st).2) := by
  by_cases hp : (h.platform == "darwin" || h.platform == "linux") = true
  · have hp2 : (!(h.platform == "darwin" || h.platform == "linux")) = false := by
      rw [hp]
      rfl
    cases hb : st.binDir with
    | some bd => simp [setupBrew, hp2, hb]
    | none =>
      cases hw : h.whichBrew with
      | some p => simp [setupBrew, hp2, hb, hw]
      | none =>
        obtain ⟨bd, hbd⟩ :=
          Option.isSome_iff_exists.mp (getBrewPath_isSome h.platform h.arch hp)
        simp [setupBrew, hp2, hb, hw, hbd]
  · have hp2 : (!(h.platform == "darwin" || h.platform == "linux")) = true := by
      simp only [Bool.not_eq_true] at hp
      rw [hp]
      rfl
    simp [setupBrew, hp2]

theorem setupBrew_preserves_inv (dirnameF : String → String) (h : BrewHost)
    (st : BrewState) (h1 : st.binDir = none → st.installs = 0) (h2 : st.installs ≤ 1) :
    ((setupBrew dirnameF h st).2.binDir = none → (setupBrew dirnameF h st).2.installs = 0)
      ∧ (setupBrew dirnameF h st).2.installs ≤ 1 := by
  by_cases hp : (h.platform == "darwin" || h.platform == "linux") = true
  · have hp2 : (!(h.platform == "darwin" || h.platform == "linux")) = false := by
      rw [hp]
      rfl
    cases hb : st.binDir with
    | some bd =>
      simp only [setupBrew, hp2, Bool.false_eq_true, if_false, hb]
      exact ⟨fun hx => absurd hx (by simp), h2⟩
    | none =>
      have hz : st.installs = 0 := h1 hb
      cases hw : h.whichBrew with
      | some p =>
        simp only [setupBrew, hp2, Bool.false_eq_true, if_false, hb, hw]
        exact ⟨fun hx => absurd hx (by simp), h2⟩
      | none =>
        obtain ⟨bd, hbd⟩ :=
          Option.isSome_iff_exists.mp (getBrewPath_isSome h.platform h.arch hp)
        simp only [setupBrew, hp2, Bool.false_eq_true, if_false, hb, hw, hbd, hz]
        exact ⟨fun hx => absurd hx (by simp), by omega⟩
  · have hp2 : (!(h.platform == "darwin" || h.platform == "linux")) = true := by
      simp only [Bool.not_eq_true] at hp
      rw [hp]
      rfl
    simp only [setupBrew, hp2, if_true]
    exact ⟨h1, h2⟩

theorem brewRun_inv (dirnameF : String → String) (hosts : List BrewHost) :
    ∀ st : BrewState, (st.binDir = none → st.installs = 0) → st.installs ≤ 1 →
      (brewRun dirnameF hosts st).installs ≤ 1 := by
  induction hosts with
  | nil =>
    intro st _ h2
    exact h2
  | cons h rest ih =>
    intro st h1 h2
    obtain ⟨k1, k2⟩ := setupBrew_preserves_inv dirnameF h st h1 h2
    exact ih _ k1 k2

end Brew

namespace Memo

theorem memoCall_inv {κ ρ : Type} [DecidableEq κ] (producer : κ → ρ)
    (st : MemoState κ ρ) (k : κ)
    (h1 : st.calls.Nodup)
    (h2 : ∀ j ∈ st.calls, (assocFind j st.cache).isSome = true)
    (h3 : ∀ j r, assocFind j st.cache = some r → r = producer j) :
    (memoCall producer st k).1 = producer k
    ∧ (memoCall producer st k).2.calls.Nodup
    ∧ (∀ j ∈ (memoCall producer st k).2.calls,
        (assocFind j (memoCall producer st k).2.cache).isSome = true)
    ∧ (∀ j r, assocFind j (memoCall producer st k).2.cache = some r
        → r = producer j) := by
  unfold memoCall
  cases hf : assocFind k st.cache with
  | some r => exact ⟨h3 k r hf, h1, h2, h3⟩
  | none =>
    refine ⟨rfl, ?_, ?_, ?_⟩
    · refine List.nodup_cons.mpr ⟨?_, h1⟩
      intro hk
      have hs := h2 k hk
      rw [hf] at hs
      exact absurd hs (by simp)
    · intro j hj
      rcases List.mem_cons.mp hj with rfl | hj
      · simp [assocFind]
      · by_cases hjk : j = k
        · subst hjk
          simp [assocFind]
        · have hred : assocFind j ((k, producer k) :: st.cache) = assocFind j st.cache := by
            simp [assocFind, hjk]
          show (assocFind j ((k, producer k) :: st.cache)).isSome = true
          rw [hred]
          exact h2 j hj
    · intro j r hjr
      by_cases hjk : j = k
      · subst hjk
        have hred : assocFind j ((j, producer j) :: st.cache) = some (producer j) := by
          simp [assocFind]
        rw [hred] at hjr
        cases hjr
        rfl
      · have hred : assocFind j ((k, producer k) :: st.cache) = assocFind j st.cache := by
          simp [assocFind, hjk]
        rw [hred] at hjr
        exact h3 j r hjr

theorem memoRun_inv {κ ρ : Type} [DecidableEq κ] (producer : κ → ρ) (ks : List κ) :
    ∀ st : MemoState κ ρ, st.calls.Nodup →
      (∀ j ∈ st.calls, (assocFind j st.cache).isSome = true) →
      (∀ j r, assocFind j st.cache = some r → r = producer j) →
      (memoRun producer ks st).1 = ks.map producer
        ∧ (memoRun producer ks st).2.calls.Nodup := by
  induction ks with
  | nil =>
    intro st h1 _ _
    exact ⟨rfl, h1⟩
  | cons k ks ih =>
    intro st h1 h2 h3
    obtain ⟨hr, hn, hs, hv⟩ := memoCall_inv producer st k h1 h2 h3
    obtain ⟨ihr, ihn⟩ := ih (memoCall producer st k).2 hn hs hv
    constructor
    · show (memoCall producer st k).1 :: (memoRun producer ks (memoCall producer st k).2).1
        = producer k :: ks.map producer
      rw [hr, ihr]
    · exact ihn

end Memo

/-- C4: the memoized producer pattern runs the expensive work at most once
per key and repeats results: a second setupBrew call on the state left by a
first call returns the same result and leaves the state untouched, any
sequence of setupBrew calls from the initial state runs the expensive
installer at most once, and for the spec-modelled memoize wrapper a run over
any key sequence invokes the producer at most once per key while every call
returns the produced value for its key. -/
theorem idempotency_cache_spec (κ ρ : Type) (inst : DecidableEq κ) :
    (∀ (dirnameF : String → String) (h : Brew.BrewHost) (st : Brew.BrewState),
      Brew.setupBrew dirnameF h (Brew.setupBrew dirnameF h st).2
        = ((Brew.setupBrew dirnameF h st).1, (Brew.setupBrew dirnameF h st).2))
    ∧ (∀ (dirnameF : String → String) (hosts : List Brew.BrewHost),
      (Brew.brewRun dirnameF hosts ⟨none, 0⟩).installs ≤ 1)
    ∧ (∀ (producer : κ → ρ) (ks : List κ) (k : κ),
      (@Memo.memoRun κ ρ inst producer ks ⟨[], []⟩).2.calls.count k ≤ 1
        ∧ (@Memo.memoRun κ ρ inst producer ks ⟨[], []⟩).1 = ks.map producer) := by
  refine ⟨Brew.setupBrew_second_call, ?_, ?_⟩
  · intro dirnameF hosts
    exact Brew.brewRun_inv dirnameF hosts ⟨none, 0⟩ (fun _ => rfl) (Nat.zero_le 1)
  · intro producer ks k
    obtain ⟨hres, hnodup⟩ := @Memo.memoRun_inv κ ρ inst producer ks ⟨[], []⟩
      List.nodup_nil (by intro j hj; exact absurd hj (by simp))
      (by intro j r hjr; exact absurd hjr (by simp [Memo.assocFind]))
    exact ⟨List.nodup_iff_count_le_one.mp hnodup k, hres⟩

namespace JsStr

theorem listStartsWith_self_append : ∀ pre rest : List Char,
    listStartsWith pre (pre ++ rest) = true := by
  intro pre rest
  induction pre with
  | nil => rfl
  | cons a as ih => simp [listStartsWith, ih]

theorem strEndsWith_append (a b : String) : strEndsWith (a ++ b) b = true := by
  unfold strEndsWith
  rw [String.data_append, List.reverse_append]
  exact listStartsWith_self_append b.data.reverse a.data.reverse

end JsStr

namespace Llvm

theorem getReleaseUrl_endsWith (version pfx sfx : String) :
    JsStr.strEndsWith (getReleaseUrl version pfx sfx) sfx = true :=
  JsStr.strEndsWith_append ("https://releases.llvm.org/" ++ version ++ "/" ++ pfx ++ version)
    sfx

theorem getGitHubUrl_endsWith (version pfx sfx : String) :
    JsStr.strEndsWith (getGitHubUrl version pfx sfx) sfx = true :=
  JsStr.strEndsWith_append
    ("https://github.com/llvm/llvm-project/releases/download/llvmorg-" ++ version ++ "/"
      ++ pfx ++ version) sfx

end Llvm

namespace RcFile

theorem jsSetDedup_nodup : ∀ (l seen : List String),
    (jsSetDedup seen l).Nodup ∧ ∀ x ∈ jsSetDedup seen l, x ∉ seen := by
  intro l
  induction l with
  | nil =>
    intro seen
    exact ⟨List.nodup_nil, by simp [jsSetDedup]⟩
  | cons x xs ih =>
    intro seen
    by_cases hx : x ∈ seen
    · have hres : jsSetDedup seen (x :: xs) = jsSetDedup seen xs := by
        simp [jsSetDedup, hx]
      rw [hres]
      exact ih seen
    · have hxm : x ∉ seen := hx
      obtain ⟨ihn, ihs⟩ := ih (x :: seen)
      have hres : jsSetDedup seen (x :: xs) = x :: jsSetDedup (x :: seen) xs := by
        simp [jsSetDedup, hx]
      rw [hres]
      constructor
      · refine List.nodup_cons.mpr ⟨?_, ihn⟩
        intro hmem
        exact (ihs x hmem) (List.mem_cons_self x seen)
      · intro y hy
        rcases List.mem_cons.mp hy with rfl | hy
        · exact hxm
        · intro hns
          exact (ihs y hy) (List.mem_cons_of_mem x hns)

theorem jsSetDedup_of_nodup : ∀ (l seen : List String),
    l.Nodup → (∀ x ∈ l, x ∉ seen) → jsSetDedup seen l = l := by
  intro l
  induction l with
  | nil =>
    intro seen _ _
    rfl
  | cons x xs ih =>
    intro seen hn hs
    have hx : x ∉ seen := hs x (List.mem_cons_self x xs)
    have hres : jsSetDedup seen (x :: xs) = x :: jsSetDedup (x :: seen) xs := by
      simp [jsSetDedup, hx]
    rw [hres]
    obtain ⟨hxn, hxsn⟩ := List.nodup_cons.mp hn
    congr 1
    apply ih (x :: seen) hxsn
    intro y hy
    intro hmem
    rcases List.mem_cons.mp hmem with rfl | hmem
    · exact hxn hy
    · exact (hs y (List.mem_cons_of_mem x hy)) hmem

theorem finalizeRCLines_idempotent (l : List String) :
    finalizeRCLines (finalizeRCLines l) = finalizeRCLines l := by
  unfold finalizeRCLines
  rw [List.reverse_reverse]
  obtain ⟨hn, _⟩ := jsSetDedup_nodup l.reverse []
  rw [jsSetDedup_of_nodup _ [] hn (by simp)]

end RcFile

/-- C5 counterexample: applying activateLLVM twice for the same directory does
not produce the same environment state as applying it once; the
LD_LIBRARY_PATH entry accumulates a duplicate lib segment. -/
theorem activation_not_idempotent :
    Activate.activateLLVM ":" "" "/llvm"
        (Activate.activateLLVM ":" "" "/llvm"
          ⟨none, none, none, none, none, none, none, none⟩)
      ≠ Activate.activateLLVM ":" "" "/llvm"
          ⟨none, none, none, none, none, none, none, none⟩ := by
  decide

/-- C5 as amended: activation applied twice agrees with a single application
on every fixed-value variable it writes (LLVM_PATH, LDFLAGS, CPPFLAGS, CC,
CXX, LIBRARY_PATH), but the search-path variables LD_LIBRARY_PATH and
DYLD_LIBRARY_PATH receive the lib directory segment a second time, so the
states differ there; the rc-file finalization, by contrast, is idempotent on
the persisted lines. -/
theorem activation_idempotence_spec (delim exeExt directory : String)
    (e : Activate.CompilerEnv) (ls : List String) :
    ((Activate.activateLLVM delim exeExt directory
        (Activate.activateLLVM delim exeExt directory e)).llvmPath
      = (Activate.activateLLVM delim exeExt directory e).llvmPath)
    ∧ ((Activate.activateLLVM delim exeExt directory
        (Activate.activateLLVM delim exeExt directory e)).ldflags
      = (Activate.activateLLVM delim exeExt directory e).ldflags)
    ∧ ((Activate.activateLLVM delim exeExt directory
        (Activate.activateLLVM delim exeExt directory e)).cppflags
      = (Activate.activateLLVM delim exeExt directory e).cppflags)
    ∧ ((Activate.activateLLVM delim exeExt directory
        (Activate.activateLLVM delim exeExt directory e)).cc
      = (Activate.activateLLVM delim exeExt directory e).cc)
    ∧ ((Activate.activateLLVM delim exeExt directory
        (Activate.activateLLVM delim exeExt directory e)).cxx
      = (Activate.activateLLVM delim exeExt directory e).cxx)
    ∧ ((Activate.activateLLVM delim exeExt directory
        (Activate.activateLLVM delim exeExt directory e)).libraryPath
      = (Activate.activateLLVM delim exeExt directory e).libraryPath)
    ∧ ((Activate.activateLLVM delim exeExt directory
        (Activate.activateLLVM delim exeExt directory e)).ldLibraryPath
      = some (directory ++ "/lib" ++ delim
          ++ (directory ++ "/lib" ++ delim ++ e.ldLibraryPath.getD "")))
    ∧ ((Activate.activateLLVM delim exeExt directory
        (Activate.activateLLVM delim exeExt directory e)).ldLibraryPath
      ≠ (Activate.activateLLVM delim exeExt directory e).ldLibraryPath)
    ∧ ((Activate.activateLLVM delim exeExt directory
        (Activate.activateLLVM delim exeExt directory e)).dyldLibraryPath
      ≠ (Activate.activateLLVM delim exeExt directory e).dyldLibraryPath)
    ∧ RcFile.finalizeRCLines (RcFile.finalizeRCLines ls) = RcFile.finalizeRCLines ls := by
  have h4 : ("/lib" : String).length = 4 := by decide
  refine ⟨rfl, rfl, rfl, rfl, rfl, rfl, rfl, ?_, ?_,
    RcFile.finalizeRCLines_idempotent ls⟩
  · intro hcon
    have hs : directory ++ "/lib" ++ delim
          ++ (directory ++ "/lib" ++ delim ++ e.ldLibraryPath.getD "")
        = directory ++ "/lib" ++ delim ++ e.ldLibraryPath.getD "" :=
      Option.some.inj hcon
    have hlen := congrArg String.length hs
    simp only [String.length_append] at hlen
    rw [h4] at hlen
    omega
  · intro hcon
    have hs : directory ++ "/lib" ++ delim
          ++ (directory ++ "/lib" ++ delim ++ e.dyldLibraryPath.getD "")
        = directory ++ "/lib" ++ delim ++ e.dyldLibraryPath.getD "" :=
      Option.some.inj hcon
    have hlen := congrArg String.length hs
    simp only [String.length_append] at hlen
    rw [h4] at hlen
    omega

/-- C5 witness: the amended theorem evaluated at a concrete directory,
delimiter and starting environment, and rc lines with a duplicate. -/
theorem activation_idempotence_spec_witness :
    ((Activate.activateLLVM ":" "" "/llvm"
        (Activate.activateLLVM ":" "" "/llvm"
          ⟨none, none, none, none, none, none, none, none⟩)).ldLibraryPath
      ≠ (Activate.activateLLVM ":" "" "/llvm"
          ⟨none, none, none, none, none, none, none, none⟩).ldLibraryPath)
    ∧ RcFile.finalizeRCLines (RcFile.finalizeRCLines ["x", "y", "x"])
        = RcFile.finalizeRCLines ["x", "y", "x"] :=
  ⟨(activation_idempotence_spec ":" "" "/llvm"
      ⟨none, none, none, none, none, none, none, none⟩ ["x", "y", "x"]).2.2.2.2.2.2.2.1,
   (activation_idempotence_spec ":" "" "/llvm"
      ⟨none, none, none, none, none, none, none, none⟩ ["x", "y", "x"]).2.2.2.2.2.2.2.2.2⟩

/-- C6: a failing or unavailable strategy never aborts the resolution: on
Ubuntu a throwing apt strategy is discarded and the archive-download outcome
becomes the overall result, off Ubuntu the archive strategy runs directly,
and a successful apt strategy short-circuits; for pip packages a failing pip
install or an unknown package falls back to the system package manager with
success when it succeeds, and only a missing or failing system manager makes
the chain fatal. -/
theorem strategy_fallback_spec (α : Type) :
    (∀ (e : String) (b : Except String α), Strategy.setupLLVMOnly true (.error e) b = b)
    ∧ (∀ (apt b : Except String α), Strategy.setupLLVMOnly false apt b = b)
    ∧ (∀ (i : α) (b : Except String α), Strategy.setupLLVMOnly true (.ok i) b = .ok i)
    ∧ (∀ (pi : Except String Unit) (m1 m2 : String) (bd : α),
        Strategy.setupPipPackWithPython false pi (some (.ok ())) m1 m2 bd = .ok bd)
    ∧ (∀ (e m1 m2 : String) (bd : α),
        Strategy.setupPipPackWithPython true (.error e) (some (.ok ())) m1 m2 bd = .ok bd)
    ∧ (∀ (sys : Option (Except String Unit)) (m1 m2 : String) (bd : α),
        Strategy.setupPipPackWithPython true (.ok ()) sys m1 m2 bd = .ok bd)
    ∧ (∀ (e m1 m2 : String) (bd : α),
        Strategy.setupPipPackWithPython true (.error e) none m1 m2 bd = .error m1)
    ∧ (∀ (e f m1 m2 : String) (bd : α),
        Strategy.setupPipPackWithPython true (.error e) (some (.error f)) m1 m2 bd
          = .error f)
    ∧ (∀ (pi : Except String Unit) (m1 m2 : String) (bd : α),
        Strategy.setupPipPackWithPython false pi none m1 m2 bd = .error m2)
    ∧ (∀ (pi : Except String Unit) (f m1 m2 : String) (bd : α),
        Strategy.setupPipPackWithPython false pi (some (.error f)) m1 m2 bd = .error f) :=
  ⟨fun _ _ => rfl, fun _ _ => rfl, fun _ _ => rfl, fun _ _ _ _ => rfl,
   fun _ _ _ _ => rfl, fun _ _ _ _ => rfl, fun _ _ _ _ => rfl, fun _ _ _ _ _ => rfl,
   fun _ _ _ _ => rfl, fun _ _ _ _ _ => rfl⟩

/-- C8: the Linux URL builder uses the explicit distribution tag of the
per-version table when the version has one, falls back to the tag of the
latest known version when the version has no table entry and carries no
embedded tag, and builds the URL of the release-candidate build 12.0.1-rc4
for the version 12.0.1 in the release-candidate override map. -/
theorem llvm_linux_url_spec :
    (∀ v tag, (Semver.parseSemver v).isSome = true →
      Llvm.UBUNTU_RC.lookup v = none → JsStr.strIncludes v "ubuntu" = false →
      (v == "") = false → Llvm.UBUNTU.lookup v = some tag →
      Llvm.getLinuxUrl v =
        (if Semver.semverLte v "9.0.1" then
          Llvm.getReleaseUrl v "clang+llvm-"
            ((if v == "5.0.0" then "-linux-x86_64" else "-x86_64-linux-gnu")
              ++ tag ++ ".tar.xz")
        else
          Llvm.getGitHubUrl v "clang+llvm-"
            ((if v == "5.0.0" then "-linux-x86_64" else "-x86_64-linux-gnu")
              ++ tag ++ ".tar.xz")))
    ∧ (∀ v, (Semver.parseSemver v).isSome = true →
      Llvm.UBUNTU_RC.lookup v = none → JsStr.strIncludes v "ubuntu" = false →
      Llvm.UBUNTU.lookup v = none →
      Llvm.getLinuxUrl v =
        (if Semver.semverLte v "9.0.1" then
          Llvm.getReleaseUrl v "clang+llvm-"
            ((if v == "5.0.0" then "-linux-x86_64" else "-x86_64-linux-gnu")
              ++ "-ubuntu-21.04" ++ ".tar.xz")
        else
          Llvm.getGitHubUrl v "clang+llvm-"
            ((if v == "5.0.0" then "-linux-x86_64" else "-x86_64-linux-gnu")
              ++ "-ubuntu-21.04" ++ ".tar.xz")))
    ∧ Llvm.getLinuxUrl "12.0.1"
        = "https://github.com/llvm/llvm-project/releases/download/llvmorg-12.0.1-rc4/clang+llvm-12.0.1-rc4-x86_64-linux-gnu-ubuntu-21.04.tar.xz"
    ∧ Llvm.getLinuxUrl "12.0.1" = Llvm.getLinuxUrl "12.0.1-rc4" := by
  refine ⟨?_, ?_, by decide, by decide⟩
  · intro v tag _hparse hrc hnu hne htag
    unfold Llvm.getLinuxUrl
    rw [hrc]
    simp only [Option.getD_none, hnu, Bool.false_eq_true, if_false, hne, Bool.not_false,
      htag, Option.isSome_some, Bool.and_self, if_true, Option.getD_some]
    by_cases h5 : (v == "5.0.0") = true <;> simp [h5]
  · intro v _hparse hrc hnu htag
    unfold Llvm.getLinuxUrl
    rw [hrc]
    simp only [Option.getD_none, hnu, Bool.false_eq_true, if_false, htag,
      Option.isSome_none, Bool.and_false, if_true, Option.getD_some]
    have hmax : (Llvm.UBUNTU.lookup Llvm.MAX_UBUNTU).getD "" = "-ubuntu-21.04" := by
      decide
    rw [hmax]
    by_cases h5 : (v == "5.0.0") = true <;> simp [h5]

/-- C8 witness: a version with an explicit tag (11.0.0) and a version outside
the table (13.0.0) evaluated through the theorem. -/
theorem llvm_linux_url_spec_witness :
    Llvm.getLinuxUrl "11.0.0"
        = "https://github.com/llvm/llvm-project/releases/download/llvmorg-11.0.0/clang+llvm-11.0.0-x86_64-linux-gnu-ubuntu-20.04.tar.xz"
      ∧ Llvm.getLinuxUrl "13.0.0"
        = "https://github.com/llvm/llvm-project/releases/download/llvmorg-13.0.0/clang+llvm-13.0.0-x86_64-linux-gnu-ubuntu-21.04.tar.xz" :=
  ⟨(llvm_linux_url_spec.1 "11.0.0" "-ubuntu-20.04" (by decide) (by decide) (by decide)
      (by decide) (by decide)).trans (by decide),
   (llvm_linux_url_spec.2.1 "13.0.0" (by decide) (by decide) (by decide)
      (by decide)).trans (by decide)⟩

/-- C9: for Windows versions outside the missing set a URL always exists, its
filename suffix is -win32.exe at or below version 3.7.0 and -win64.exe above,
versions at or below 9.0.1 use the release-archive host when the probe
confirms its URL and automatically fall back to the GitHub host otherwise,
and versions above 9.0.1 use the GitHub host directly. -/
theorem llvm_win32_url_spec (probe : String → Bool) (v : String)
    (_hv : v ∈ Llvm.SPECIFIC) (hm : Llvm.WIN32_MISSING.contains v = false) :
    (∃ u, Llvm.getWin32Url probe v = some u)
    ∧ (∀ u, Llvm.getWin32Url probe v = some u →
        JsStr.strEndsWith u
          (if Semver.semverLte v "3.7.0" then "-win32.exe" else "-win64.exe") = true)
    ∧ (Semver.semverLte v "9.0.1" = true →
        Llvm.getWin32Url probe v =
          some (if probe (Llvm.getReleaseUrl v "LLVM-"
                (if Semver.semverLte v "3.7.0" then "-win32.exe" else "-win64.exe"))
              = true then
            Llvm.getReleaseUrl v "LLVM-"
              (if Semver.semverLte v "3.7.0" then "-win32.exe" else "-win64.exe")
          else
            Llvm.getGitHubUrl v "LLVM-"
              (if Semver.semverLte v "3.7.0" then "-win32.exe" else "-win64.exe")))
    ∧ (Semver.semverLte v "9.0.1" = false →
        Llvm.getWin32Url probe v =
          some (Llvm.getGitHubUrl v "LLVM-"
            (if Semver.semverLte v "3.7.0" then "-win32.exe" else "-win64.exe"))) := by
  have hc3 : Semver.semverLte v "9.0.1" = true →
      Llvm.getWin32Url probe v =
        some (if probe (Llvm.getReleaseUrl v "LLVM-"
              (if Semver.semverLte v "3.7.0" then "-win32.exe" else "-win64.exe"))
            = true then
          Llvm.getReleaseUrl v "LLVM-"
            (if Semver.semverLte v "3.7.0" then "-win32.exe" else "-win64.exe")
        else
          Llvm.getGitHubUrl v "LLVM-"
            (if Semver.semverLte v "3.7.0" then "-win32.exe" else "-win64.exe")) := by
    intro h91
    unfold Llvm.getWin32Url
    rw [hm]
    simp only [Bool.false_eq_true, if_false, h91, if_true]
    by_cases hpr : probe (Llvm.getReleaseUrl v "LLVM-"
        (if Semver.semverLte v "3.7.0" then "-win32.exe" else "-win64.exe")) = true
    · rw [if_pos hpr, if_pos hpr]
    · rw [if_neg hpr, if_neg hpr]
  have hc4 : Semver.semverLte v "9.0.1" = false →
      Llvm.getWin32Url probe v =
        some (Llvm.getGitHubUrl v "LLVM-"
          (if Semver.semverLte v "3.7.0" then "-win32.exe" else "-win64.exe")) := by
    intro h91
    unfold Llvm.getWin32Url
    rw [hm]
    simp only [Bool.false_eq_true, if_false, h91, if_true]
  refine ⟨?_, ?_, hc3, hc4⟩
  · cases h91 : Semver.semverLte v "9.0.1" with
    | true => exact ⟨_, hc3 h91⟩
    | false => exact ⟨_, hc4 h91⟩
  · intro u hu
    cases h91 : Semver.semverLte v "9.0.1" with
    | true =>
      rw [hc3 h91] at hu
      have hu2 := Option.some.inj hu
      by_cases hpr : probe (Llvm.getReleaseUrl v "LLVM-"
          (if Semver.semverLte v "3.7.0" then "-win32.exe" else "-win64.exe")) = true
      · rw [if_pos hpr] at hu2
        rw [← hu2]
        exact Llvm.getReleaseUrl_endsWith v "LLVM-" _
      · rw [if_neg hpr] at hu2
        rw [← hu2]
        exact Llvm.getGitHubUrl_endsWith v "LLVM-" _
    | false =>
      rw [hc4 h91] at hu
      have hu2 := Option.some.inj hu
      rw [← hu2]
      exact Llvm.getGitHubUrl_endsWith v "LLVM-" _

/-- C9 witness: the threshold and fallback behavior at concrete versions: an
old version on the release host with a confirming probe, the same era with a
rejecting probe falling back to GitHub, and a new version on GitHub
directly. -/
theorem llvm_win32_url_spec_witness :
    Llvm.getWin32Url (fun _ => true) "3.5.0"
        = some "https://releases.llvm.org/3.5.0/LLVM-3.5.0-win32.exe"
      ∧ Llvm.getWin32Url (fun _ => false) "3.8.0"
        = some "https://github.com/llvm/llvm-project/releases/download/llvmorg-3.8.0/LLVM-3.8.0-win64.exe"
      ∧ Llvm.getWin32Url (fun _ => true) "12.0.1"
        = some "https://github.com/llvm/llvm-project/releases/download/llvmorg-12.0.1/LLVM-12.0.1-win64.exe" :=
  ⟨((llvm_win32_url_spec (fun _ => true) "3.5.0" (by decide) (by decide)).2.2.1
      (by decide)).trans (by decide),
   ((llvm_win32_url_spec (fun _ => false) "3.8.0" (by decide) (by decide)).2.2.1
      (by decide)).trans (by decide),
   ((llvm_win32_url_spec (fun _ => true) "12.0.1" (by decide) (by decide)).2.2.2
      (by decide)).trans (by decide)⟩
